import Mathlib

/-!
# Verification of the oci-db-doctor diagnostic operations and agent loop

Shallow embedding of the pure computational content of
`oci_db_doctor/server.py` (diagnostic operations over query result rows) and
`oci_db_doctor/agent.py` (the LangGraph orchestration loop and the result
aggregation in `process_query`), with theorems settling the specification
claims about them.

Database query results are modelled as input lists of row records: the SQL
text selects and filters rows externally, and the Python code of each operation
post-processes the returned rows.  Numeric row fields use `ℚ` (Oracle NUMBER)
or `ℤ` where the code only compares integers.
-/

namespace OciDbDoctor

/-- Python `round(x, 1)` on exact values: round half to even at one decimal.
Used by `check_cpu_saturation` and `long_operations` in `server.py`. -/
def roundHalfEven (q : ℚ) : ℤ :=
  let f : ℤ := ⌊q⌋
  let frac : ℚ := q - f
  if frac < 1/2 then f
  else if 1/2 < frac then f + 1
  else if f % 2 = 0 then f else f + 1

/-- `round(x, 1)` : scale by ten, round half to even, scale back. -/
def pyRound1 (q : ℚ) : ℚ := (roundHalfEven (q * 10) : ℚ) / 10

/-! ## `long_operations` (server.py) -/

/-- One row of the `v$session_longops` query in `long_operations`:
only the fields the post-processing touches. -/
structure LongOpRow where
  sofar : ℚ
  totalwork : ℚ
deriving DecidableEq

/-- The per-row derivation in `long_operations`: Python
`if row["TOTALWORK"] and row["TOTALWORK"] > 0:` (truthiness = nonzero, then
strict positivity) attaches `progress_percent = round(sofar/totalwork*100, 1)`;
otherwise the field is absent (`none`). -/
def longOpsProgress (r : LongOpRow) : Option ℚ :=
  if r.totalwork ≠ 0 ∧ 0 < r.totalwork then
    some (pyRound1 (r.sofar / r.totalwork * 100))
  else none

/-- The `long_operations` return value: rows with their derived field, plus
`total_count = len(results)`. -/
def long_operations (results : List LongOpRow) : List (LongOpRow × Option ℚ) × ℕ :=
  (results.map (fun r => (r, longOpsProgress r)), results.length)

/-! ## `check_cpu_saturation` (server.py) -/

/-- Result record of `check_cpu_saturation`. -/
structure CpuResult where
  average_cpu_percent : ℚ
  peak_cpu_percent : ℚ
  is_cpu_bottleneck : Bool
  data_points : ℕ
deriving DecidableEq

/-- `check_cpu_saturation` post-processing: with samples `cpu_values`
(the `CPU_USAGE_PERCENT` column of the AWR query), if nonempty then
`avg = sum/len`, `peak = max`, else both `0`; returns
`round(avg,1)`, `round(peak,1)`, and `is_cpu_bottleneck = avg > 80`
(on the unrounded average). -/
def check_cpu_saturation (cpu_values : List ℚ) : CpuResult :=
  match cpu_values with
  | [] =>
      { average_cpu_percent := pyRound1 0
        peak_cpu_percent := pyRound1 0
        is_cpu_bottleneck := decide ((0 : ℚ) > 80)
        data_points := 0 }
  | v :: rest =>
      let avg : ℚ := (v :: rest).sum / (v :: rest).length
      let peak : ℚ := rest.foldl max v
      { average_cpu_percent := pyRound1 avg
        peak_cpu_percent := pyRound1 peak
        is_cpu_bottleneck := decide (avg > 80)
        data_points := (v :: rest).length }

/-! ## `sql_monitoring` (server.py) -/

/-- One row of the `gv$session` join in `sql_monitoring` (fields used by the
post-processing and the optional `sid` filter). -/
structure SessionRow where
  sid : ℤ
  last_call_et : ℤ
deriving DecidableEq

/-- Result record of `sql_monitoring`. -/
structure SqlMonResult where
  active_sessions : ℕ
  long_running_sessions : ℕ
  session_details : List SessionRow
  session_filter : String
deriving DecidableEq

/-- Python truthiness of the optional `session_id` argument:
`if session_id:` is false for `None` and for `0`. -/
def sidTruthy : Option ℤ → Bool
  | none => false
  | some i => i != 0

/-- The rows the `sql_monitoring` query returns: the active, non-idle
sessions, further restricted by `AND s.sid = :session_id` when the optional
`session_id` is truthy. -/
def sqlMonResults (session_id : Option ℤ) (activeRows : List SessionRow) :
    List SessionRow :=
  if sidTruthy session_id then
    activeRows.filter (fun r => r.sid = session_id.getD 0)
  else activeRows

/-- `sql_monitoring`: the query returns active, non-idle sessions
(`activeRows`); when `session_id` is truthy the SQL gains
`AND s.sid = :session_id`; then `long_running` counts rows with
`LAST_CALL_ET > 300` and `session_details` is `results[:10]` when
`len(results) > 10`, else `results` unmodified. -/
def sql_monitoring (session_id : Option ℤ) (activeRows : List SessionRow) :
    SqlMonResult :=
  let results := sqlMonResults session_id activeRows
  let long_running := results.filter (fun r => 300 < r.last_call_et)
  { active_sessions := results.length
    long_running_sessions := long_running.length
    session_details := if results.length > 10 then results.take 10 else results
    session_filter :=
      if sidTruthy session_id then "sid=" ++ toString (session_id.getD 0)
      else "all" }

/-! ## Connection management (server.py, `OracleDiagnostics`) -/

/-- A database connection; `healthy` is the result of `is_healthy()`. -/
structure Connection where
  healthy : Bool
deriving DecidableEq

/-- The connection-relevant environment: `DB_URL`, `DB_USER`, `DB_PASSWORD`
as returned by `os.getenv` (`none` = variable absent). -/
structure Env where
  db_url : Option String
  db_user : Option String
  db_password : Option String
deriving DecidableEq

/-- Python truthiness of an optional string: `None` and the empty string are
falsy, so they fail the `all([dsn, username, password])` check. -/
def strTruthy : Option String → Bool
  | none => false
  | some s => s != ""

/-- The guard in `_get_db_connection`:
`self.db_connection is None or self.db_connection.is_healthy() is False`. -/
def needsNewConnection : Option Connection → Bool
  | none => true
  | some c => !c.healthy

/-- The `ValueError` message raised when credentials are missing. -/
def credsMsg : String := "Database credentials not provided in environment variables"

/-- The reconnect branch of `_get_db_connection`: checks
`not all([dsn, username, password])` and raises `ValueError` (modelled as
`Except.error`) before `oracledb.connect` runs; on success the `Bool` flags
that `oracledb.connect` created a new connection. -/
def connectNew (env : Env) : Except String (Connection × Bool) :=
  if !(strTruthy env.db_url && strTruthy env.db_user && strTruthy env.db_password) then
    Except.error credsMsg
  else Except.ok ({ healthy := true }, true)

/-- `_get_db_connection`: reuse the stored connection when it exists and is
healthy, otherwise run the reconnect branch. -/
def get_db_connection (env : Env) (cur : Option Connection) :
    Except String (Connection × Bool) :=
  match cur with
  | some c => if c.healthy then Except.ok (c, false) else connectNew env
  | none => connectNew env

/-- `_execute_query`: acquires the connection via `_get_db_connection`
first; only with a connection in hand does the query callback run.  A
credentials failure propagates as the error and `runQ` is never consulted. -/
def execute_query {α : Type} (env : Env) (cur : Option Connection)
    (runQ : Connection → α) : Except String (α × Connection) :=
  match get_db_connection env cur with
  | Except.error e => Except.error e
  | Except.ok (c, _) => Except.ok (runQ c, c)

/-! ## `parallelism_analysis` (server.py) -/

/-- One row of the `gv$session`/`gv$px_session` join in
`parallelism_analysis`. -/
structure PxRow where
  sid : ℤ
  sql_id : String
  req_degree : ℤ
  degree : ℤ
  seconds_in_wait : ℤ
deriving DecidableEq

/-- A requested-vs-granted parallelism mismatch record. -/
structure DopMismatch where
  sid : ℤ
  sql_id : String
  requested : ℤ
  granted : ℤ
deriving DecidableEq

/-- Result record of `parallelism_analysis`. -/
structure PxResult where
  parallel_sessions : ℕ
  dop_mismatches : List DopMismatch
  high_wait_sessions : ℕ
deriving DecidableEq

/-- The loop body of `parallelism_analysis`: appends to `dop_mismatches`
when `req_degree != actual_degree and req_degree > 0`, and increments
`high_wait_sessions` when `SECONDS_IN_WAIT > 60`. -/
def pxStep (acc : List DopMismatch × ℕ) (row : PxRow) : List DopMismatch × ℕ :=
  let ms :=
    if row.req_degree ≠ row.degree ∧ 0 < row.req_degree then
      acc.1 ++ [⟨row.sid, row.sql_id, row.req_degree, row.degree⟩]
    else acc.1
  let hw := if 60 < row.seconds_in_wait then acc.2 + 1 else acc.2
  (ms, hw)

/-- `parallelism_analysis` post-processing over the returned rows. -/
def parallelism_analysis (results : List PxRow) : PxResult :=
  let p := results.foldl pxStep ([], 0)
  { parallel_sessions := results.length
    dop_mismatches := p.1
    high_wait_sessions := p.2 }

/-! ## Messages and the orchestration loop (agent.py)

The LangChain message kinds appearing in the loop: `HumanMessage`,
`SystemMessage`, `AIMessage` (with its `tool_calls` list) and `ToolMessage`
(with `status` and the structured content of its `artifact`). -/

/-- A tool invocation requested by an assistant message: operation name and
argument mapping (arguments kept opaque as text). -/
structure ToolCall where
  name : String
  args : String
deriving DecidableEq

/-- A message of the conversation history. -/
inductive Msg where
  | human (content : String)
  | system (content : String)
  | ai (content : String) (tool_calls : List ToolCall)
  | tool (name : String) (content : String) (isErr : Bool) (structured : String)
deriving DecidableEq

/-- The `content` attribute common to all message kinds. -/
def msgContent : Msg → String
  | .human c => c
  | .system c => c
  | .ai c _ => c
  | .tool _ c _ _ => c

/-- The system directive prepended by `agent_node` (content is immaterial to
the control flow verified here; the model function is quantified over). -/
def SYSTEM_PROMPT : String :=
  "You are an expert Oracle database diagnostics assistant. You help users analyze and troubleshoot Oracle database performance issues. When users ask questions about Oracle performance issues, use the appropriate diagnostic tools to gather information, then provide clear, concise analysis and do not recommend any actions. Be concise but informative in your responses. Do not hallucinate. Do not diagnose errors from the tools. Check your answer before replying. Make sure that your answer is valid markdown and escapes dollar signs properly."

/-- Target of the conditional edge out of the agent node: the tool node, or
the terminal `END` (here `.stop`). -/
inductive NextNode where
  | tools
  | stop
deriving DecidableEq

/-- `should_continue` from agent.py: `"tools"` when the history is nonempty,
its last message is an `AIMessage`, and that message has a truthy (nonempty)
`tool_calls` list; `END` otherwise. -/
def should_continue (messages : List Msg) : NextNode :=
  match messages.getLast? with
  | some (Msg.ai _ tool_calls) => if tool_calls ≠ [] then .tools else .stop
  | _ => .stop

/-- A model: given the messages passed to the LLM (system directive plus
history), produce the next assistant message content and requested tool
calls. -/
abbrev LLM := List Msg → String × List ToolCall

/-- Outcome of one graph invocation: `finished = true` means the loop reached
`END` (the `DONE` state); `finished = false` is the fatal, reported
budget-exceeded outcome.  `msgs` is the final history, `modelSteps` counts
`AWAIT_MODEL` steps (agent-node executions) and `dispatchCycles` counts
`DISPATCH_TOOLS` rounds (tool-node executions). -/
structure LoopResult where
  finished : Bool
  msgs : List Msg
  modelSteps : ℕ
  dispatchCycles : ℕ
deriving DecidableEq

/-- Modelled from the spec: the graph runtime that executes the compiled
workflow, which is not part of the repository sources (agent.py only wires
`agent` and `tools` nodes, the `should_continue` conditional edge and the
`tools → agent` edge, and the runtime enforces a configurable recursion
limit).  Each round: `agent_node` calls the model on the system directive
plus the history and appends the produced `AIMessage`; the conditional edge
`should_continue` picks `END` or the tool node; the tool node maps each
requested call to a tool-result message, appended in request order.  When
the budget of `AWAIT_MODEL → DISPATCH_TOOLS` round trips is exhausted while
tools are still requested, the invocation terminates as the fatal, reported
failure (`finished = false`), per the spec termination contract. -/
def runLoop (llm : LLM) (execTool : ToolCall → Msg) :
    ℕ → List Msg → LoopResult
  | 0, history =>
      let p := llm (Msg.system SYSTEM_PROMPT :: history)
      let h := history ++ [Msg.ai p.1 p.2]
      match should_continue h with
      | .stop => ⟨true, h, 1, 0⟩
      | .tools => ⟨false, h, 1, 0⟩
  | b + 1, history =>
      let p := llm (Msg.system SYSTEM_PROMPT :: history)
      let h := history ++ [Msg.ai p.1 p.2]
      match should_continue h with
      | .stop => ⟨true, h, 1, 0⟩
      | .tools =>
          let r := runLoop llm execTool b (h ++ p.2.map execTool)
          ⟨r.finished, r.msgs, r.modelSteps + 1, r.dispatchCycles + 1⟩

/-! ## Result aggregation (`process_query`, agent.py) -/

/-- Payload of one aggregated tool result: raw error text for an
error-status message, otherwise the structured content body. -/
inductive ToolPayload where
  | raw (text : String)
  | structured (body : String)
deriving DecidableEq

/-- One entry of the aggregated `tool_results` list. -/
structure ToolEntry where
  tool : String
  output : ToolPayload
deriving DecidableEq

/-- The reversed scan of `process_query`:
`for n, msg in enumerate(reversed(msgs)): if msg.content == user_query: break`.
Applied to the reversed history, the loop leaves `n` at the index of the
first match, or at the index of the final element when nothing matches
(`enumerate` keeps assigning `n`; no match means no `break`).  The empty
case never arises under the nonempty guard of `processQueryAggregate`. -/
def revScan (q : String) : List Msg → ℕ
  | [] => 0
  | m :: rest =>
      if msgContent m == q then 0
      else match rest with
        | [] => 0
        | _ :: _ => revScan q rest + 1

/-- The final value of `n` in `process_query` for history `msgs`. -/
def revScanN (msgs : List Msg) (q : String) : ℕ := revScan q msgs.reverse

/-- The slice `msgs[-n:]`: the whole list when `n = 0` (Python `msgs[-0:]`
is `msgs[0:]`), otherwise the last `n` messages. -/
def pyTailSlice (msgs : List Msg) (n : ℕ) : List Msg :=
  if n = 0 then msgs else msgs.drop (msgs.length - n)

/-- The window of messages that `process_query` aggregates over. -/
def pyWindow (msgs : List Msg) (q : String) : List Msg :=
  pyTailSlice msgs (revScanN msgs q)

/-- One step of the aggregation loop of `process_query`: a `ToolMessage`
appends `{tool, output}` with the raw content on error status and the
structured artifact content otherwise; an `AIMessage` overwrites
`final_response` with its content (whether or not it has text). -/
def aggStep (acc : String × List ToolEntry) (m : Msg) : String × List ToolEntry :=
  match m with
  | .tool name content isErr structured =>
      (acc.1, acc.2 ++ [⟨name, if isErr then .raw content else .structured structured⟩])
  | .ai c _ => (c, acc.2)
  | _ => acc

/-- The aggregation tail of `process_query`: slice the history at the scan
index, then fold the loop from `final_response = ""`, `tool_results = []`.
`none` models the `NameError` on an empty history (the loop variable `n` is
never bound). -/
def processQueryAggregate (msgs : List Msg) (q : String) :
    Option (String × List ToolEntry) :=
  if msgs = [] then none
  else some ((pyWindow msgs q).foldl aggStep ("", []))

/-- The `content` of an `AIMessage`, `none` for other kinds. -/
def aiContent : Msg → Option String
  | .ai c _ => some c
  | _ => none

/-- The aggregated tool entries of a message list, order preserved. -/
def toolEntriesOf (l : List Msg) : List ToolEntry :=
  l.filterMap (fun m =>
    match m with
    | .tool name content isErr structured =>
        some ⟨name, if isErr then .raw content else .structured structured⟩
    | _ => none)

/-- Content of the last assistant message of a list (empty string when there
is none); the value the aggregation loop leaves in `final_response`. -/
def lastAiContent (l : List Msg) : String :=
  (l.filterMap aiContent).getLastD ""

/-- Content of the last assistant message that has text, as claim C3 words
the final answer (for comparison with the code behavior). -/
def lastAiTextContent (l : List Msg) : String :=
  (l.filterMap (fun m =>
    match m with
    | .ai c _ => if c = "" then none else some c
    | _ => none)).getLastD ""

/-- The messages strictly after the most recent occurrence of `q` in
`msgs` (all of `msgs` when `q` does not occur): the window claim C3
describes. -/
def strictlyAfterLastOcc (msgs : List Msg) (q : String) : List Msg :=
  (msgs.reverse.takeWhile (fun m => msgContent m != q)).reverse

/-- The aggregation exactly as claim C3 words it, for comparison with
`processQueryAggregate`: consider only the messages strictly after the most
recent occurrence of the question; the final answer is the last assistant
message with text among them; tool results in order with raw text on error
status and the structured body otherwise. -/
def claimAggregate (msgs : List Msg) (q : String) :
    Option (String × List ToolEntry) :=
  if msgs = [] then none
  else
    some (lastAiTextContent (strictlyAfterLastOcc msgs q),
          toolEntriesOf (strictlyAfterLastOcc msgs q))

/-! ## Checkpointed invocation (`process_query`, agent.py) -/

/-- The store of the in-memory checkpointer: per thread id, the message
state after the last invocation. -/
abbrev CheckpointStore := List (String × List Msg)

/-- Stored messages for a thread id (empty for a fresh thread). -/
def ckGet (st : CheckpointStore) (tid : String) : List Msg :=
  match st.find? (fun p => p.1 == tid) with
  | some p => p.2
  | none => []

/-- Store the message state for a thread id. -/
def ckSet (st : CheckpointStore) (tid : String) (msgs : List Msg) :
    CheckpointStore :=
  match st with
  | [] => [(tid, msgs)]
  | p :: rest => if p.1 == tid then (tid, msgs) :: rest else p :: ckSet rest tid msgs

/-- Modelled from the spec: the checkpoint mechanism that may retain the
conversation for resumability within a single logical thread.  The graph is
compiled with an in-memory checkpointer (not part of the repository sources
beyond its construction in `get_graph`); an invocation with a thread id
resumes from the stored message state for that thread, appends the input
messages, runs the loop, and stores the resulting state back. -/
def graphInvoke (llm : LLM) (execTool : ToolCall → Msg) (budget : ℕ)
    (st : CheckpointStore) (thread_id : String) (input : List Msg) :
    CheckpointStore × List Msg :=
  let saved := ckGet st thread_id
  let r := runLoop llm execTool budget (saved ++ input)
  (ckSet st thread_id r.msgs, r.msgs)

/-- `process_query` from agent.py: invoke the graph with the constant
`thread_id = "1"` and input `[HumanMessage(user_query)]`, then aggregate the
returned message list against the original question.  Returns the updated
checkpoint store, the final response and the tool-result list. -/
def process_query (llm : LLM) (execTool : ToolCall → Msg) (budget : ℕ)
    (st : CheckpointStore) (user_query : String) :
    CheckpointStore × String × List ToolEntry :=
  let r := graphInvoke llm execTool budget st "1" [Msg.human user_query]
  (r.1, (processQueryAggregate r.2 user_query).getD ("", []))

/-- A model that never requests a tool and answers according to whether the
history it can see contains the first question (used to exhibit history
carryover between questions). -/
def llmProbe : LLM := fun h =>
  (if Msg.human "q1" ∈ h then "saw q1" else "fresh", [])

/-- A trivial tool executor for concrete instantiations. -/
def execStub : ToolCall → Msg := fun tc => Msg.tool tc.name "" false ""

/-! ## Helper lemmas -/

lemma foldl_max_mem {α : Type} [LinearOrder α] (v : α) (rest : List α) :
    rest.foldl max v ∈ v :: rest := by
  induction rest generalizing v with
  | nil => simp
  | cons a t ih =>
      have h := ih (max v a)
      rcases max_choice v a with h1 | h1 <;>
        · rw [List.foldl_cons]
          rcases List.mem_cons.mp h with h2 | h2 <;> simp [h1] at h2 ⊢ <;> simp [h2]

lemma le_foldl_max {α : Type} [LinearOrder α] (v : α) (rest : List α) :
    ∀ x ∈ v :: rest, x ≤ rest.foldl max v := by
  induction rest generalizing v with
  | nil => intro x hx; simp at hx; simp [hx]
  | cons a t ih =>
      intro x hx
      rw [List.foldl_cons]
      rcases List.mem_cons.mp hx with h | h
      · calc x = v := h
          _ ≤ max v a := le_max_left v a
          _ ≤ t.foldl max (max v a) := ih (max v a) _ (List.mem_cons_self _ _)
      · rcases List.mem_cons.mp h with h2 | h2
        · calc x = a := h2
            _ ≤ max v a := le_max_right v a
            _ ≤ t.foldl max (max v a) := ih (max v a) _ (List.mem_cons_self _ _)
        · exact ih (max v a) x (List.mem_cons_of_mem _ h2)

lemma pxStep_foldl (rows : List PxRow) (ms0 : List DopMismatch) (hw0 : ℕ) :
    rows.foldl pxStep (ms0, hw0)
      = (ms0 ++ (rows.filter
            (fun r => r.req_degree ≠ r.degree ∧ 0 < r.req_degree)).map
              (fun r => ⟨r.sid, r.sql_id, r.req_degree, r.degree⟩),
         hw0 + rows.countP (fun r => 60 < r.seconds_in_wait)) := by
  induction rows generalizing ms0 hw0 with
  | nil => simp
  | cons r t ih =>
      rw [List.foldl_cons, List.filter_cons, List.countP_cons]
      by_cases h1 : r.req_degree ≠ r.degree ∧ 0 < r.req_degree <;>
        by_cases h2 : 60 < r.seconds_in_wait <;>
          simp [pxStep, h1, h2, ih] <;> omega

/-! ## Claim theorems -/

/-- C4: for every record returned by `long_operations`, the derived
`progress_percent` field is present iff the total work is positive, in which
case it equals `round(done/total*100, 1)`, and it is omitted when the total
work is `0`; concretely `done = 25, total = 100` gives `25.0`. -/
theorem c4_long_operations_progress (results : List LongOpRow) (r : LongOpRow)
    (hr : r ∈ results) :
    (r, longOpsProgress r) ∈ (long_operations results).1 ∧
    ((longOpsProgress r).isSome ↔ 0 < r.totalwork) ∧
    (0 < r.totalwork →
      longOpsProgress r = some (pyRound1 (r.sofar / r.totalwork * 100))) ∧
    (r.totalwork = 0 → longOpsProgress r = none) ∧
    longOpsProgress ⟨25, 100⟩ = some 25 := by
  refine ⟨List.mem_map_of_mem _ hr, ?_, ?_, ?_, ?_⟩
  · unfold longOpsProgress
    split_ifs with h
    · simp [h.2]
    · simp only [Option.isSome_none, Bool.false_eq_true, false_iff]
      intro hpos
      exact h ⟨ne_of_gt hpos, hpos⟩
  · intro hpos
    rw [longOpsProgress, if_pos ⟨ne_of_gt hpos, hpos⟩]
  · intro h0
    simp [longOpsProgress, h0]
  · norm_num [longOpsProgress, pyRound1, roundHalfEven]

theorem c4_witness :
    longOpsProgress ⟨25, 100⟩ = some 25 :=
  (c4_long_operations_progress [⟨25, 100⟩] ⟨25, 100⟩
    (List.mem_singleton.mpr rfl)).2.2.2.2

/-- C5 counterexample: the claim says the operation returns the peak
(maximum) sample, but `check_cpu_saturation` returns `round(peak, 1)`: for
the single sample `90.55` (whose maximum is itself) the returned peak is
`90.6 ≠ 90.55`. -/
theorem c5_counterexample :
    (check_cpu_saturation [1811/20]).peak_cpu_percent = 453/5 ∧
    (453 : ℚ)/5 ≠ 1811/20 ∧
    ([] : List ℚ).foldl max (1811/20) = 1811/20 := by
  refine ⟨?_, by norm_num, rfl⟩
  norm_num [check_cpu_saturation, pyRound1, roundHalfEven]

/-- C5 amended: for every nonempty sample list, `check_cpu_saturation`
returns the average rounded to one decimal, the maximum sample rounded to
one decimal, and a bottleneck flag true iff the (unrounded) average exceeds
80; `[70, 90, 85]` gives average `81.7`, peak `90`, bottleneck `true`, and
`[60, 70]` gives average `65.0`, bottleneck `false`. -/
theorem c5_cpu_saturation_amended (v : ℚ) (rest : List ℚ) :
    (check_cpu_saturation (v :: rest)).average_cpu_percent
        = pyRound1 ((v :: rest).sum / (v :: rest).length) ∧
    (check_cpu_saturation (v :: rest)).peak_cpu_percent
        = pyRound1 (rest.foldl max v) ∧
    ((check_cpu_saturation (v :: rest)).is_cpu_bottleneck = true ↔
        80 < (v :: rest).sum / (v :: rest).length) ∧
    (rest.foldl max v ∈ v :: rest ∧ ∀ x ∈ v :: rest, x ≤ rest.foldl max v) ∧
    check_cpu_saturation [70, 90, 85] =
      { average_cpu_percent := 817/10, peak_cpu_percent := 90,
        is_cpu_bottleneck := true, data_points := 3 } ∧
    check_cpu_saturation [60, 70] =
      { average_cpu_percent := 65, peak_cpu_percent := 70,
        is_cpu_bottleneck := false, data_points := 2 } := by
  refine ⟨rfl, rfl, ?_, ⟨foldl_max_mem v rest, le_foldl_max v rest⟩, ?_, ?_⟩
  · simp [check_cpu_saturation]
  · norm_num [check_cpu_saturation, pyRound1, roundHalfEven, CpuResult.mk.injEq]
  · norm_num [check_cpu_saturation, pyRound1, roundHalfEven, CpuResult.mk.injEq]

theorem c5_witness :
    check_cpu_saturation [70, 90, 85] =
      { average_cpu_percent := 817/10, peak_cpu_percent := 90,
        is_cpu_bottleneck := true, data_points := 3 } :=
  (c5_cpu_saturation_amended 70 [90, 85]).2.2.2.2.1

/-- C6: for the session list the `sql_monitoring` query returns, the
active-session count is its length, the long-running count is the number of
rows with `LAST_CALL_ET > 300`, and the detail list is the first ten rows
when there are more than ten, unmodified otherwise; 15 sessions give ten
details, 5 sessions give five. -/
theorem c6_sql_monitoring (session_id : Option ℤ) (activeRows : List SessionRow) :
    (sql_monitoring session_id activeRows).active_sessions
        = (sqlMonResults session_id activeRows).length ∧
    (sql_monitoring session_id activeRows).long_running_sessions
        = (sqlMonResults session_id activeRows).countP
            (fun r => 300 < r.last_call_et) ∧
    (10 < (sqlMonResults session_id activeRows).length →
        (sql_monitoring session_id activeRows).session_details
          = (sqlMonResults session_id activeRows).take 10) ∧
    ((sqlMonResults session_id activeRows).length ≤ 10 →
        (sql_monitoring session_id activeRows).session_details
          = sqlMonResults session_id activeRows) ∧
    (sql_monitoring none (List.replicate 15 ⟨1, 0⟩)).session_details.length = 10 ∧
    (sql_monitoring none (List.replicate 5 ⟨1, 0⟩)).session_details.length = 5 := by
  refine ⟨rfl, (List.countP_eq_length_filter _ _).symm, ?_, ?_, ?_, ?_⟩
  · intro h
    simp [sql_monitoring, h]
  · intro h
    simp [sql_monitoring, Nat.not_lt.mpr h]
  · simp [sql_monitoring, sqlMonResults, sidTruthy]
  · simp [sql_monitoring, sqlMonResults, sidTruthy]

theorem c6_witness :
    (sql_monitoring none (List.replicate 15 (⟨1, 0⟩ : SessionRow))).session_details
      = (sqlMonResults none (List.replicate 15 (⟨1, 0⟩ : SessionRow))).take 10 :=
  (c6_sql_monitoring none (List.replicate 15 ⟨1, 0⟩)).2.2.1
    (by simp [sqlMonResults, sidTruthy])

/-- C7 counterexample: the claim says the mismatch list contains exactly the
sessions whose requested degree differs from the granted degree, but the
code additionally requires `req_degree > 0`: a row with requested `0` and
granted `4` differs yet is excluded. -/
theorem c7_counterexample :
    (parallelism_analysis [⟨1, "abc", 0, 4, 0⟩]).dop_mismatches = [] ∧
    (⟨1, "abc", 0, 4, 0⟩ : PxRow).req_degree ≠ (⟨1, "abc", 0, 4, 0⟩ : PxRow).degree := by
  refine ⟨?_, by decide⟩
  simp [parallelism_analysis, pxStep]

/-- C7 amended: the mismatch list contains exactly the sessions whose
requested parallelism degree is positive and differs from the granted
degree, and the high-wait count is the number of sessions waiting more than
60 time units. -/
theorem c7_parallelism_amended (results : List PxRow) :
    (parallelism_analysis results).dop_mismatches
      = (results.filter
            (fun r => r.req_degree ≠ r.degree ∧ 0 < r.req_degree)).map
          (fun r => ⟨r.sid, r.sql_id, r.req_degree, r.degree⟩) ∧
    (parallelism_analysis results).high_wait_sessions
      = results.countP (fun r => 60 < r.seconds_in_wait) ∧
    (parallelism_analysis results).parallel_sessions = results.length := by
  refine ⟨?_, ?_, rfl⟩ <;> simp [parallelism_analysis, pxStep_foldl]

/-- C8: when no healthy connection is established and any of `DB_URL`,
`DB_USER`, `DB_PASSWORD` is absent from the environment, the operation fails
with the configuration error before any query executes (the error is
independent of the query callback, which is never consulted) and no
connection is created (the result carries no connection). -/
theorem c8_missing_credentials {α : Type} (env : Env) (cur : Option Connection)
    (runQ : Connection → α)
    (hconn : needsNewConnection cur = true)
    (hmissing : env.db_url = none ∨ env.db_user = none ∨ env.db_password = none) :
    get_db_connection env cur = Except.error credsMsg ∧
    execute_query env cur runQ = Except.error credsMsg := by
  have hc : connectNew env = Except.error credsMsg := by
    rcases hmissing with h | h | h <;> simp [connectNew, strTruthy, h]
  have hg : get_db_connection env cur = Except.error credsMsg := by
    cases cur with
    | none => exact hc
    | some c =>
        have hh : c.healthy = false := by
          simpa [needsNewConnection] using hconn
        simp [get_db_connection, hh, hc]
  exact ⟨hg, by simp [execute_query, hg]⟩

theorem c8_witness :
    execute_query ⟨none, some "u", some "p"⟩ none (fun c => c.healthy)
      = Except.error credsMsg :=
  (c8_missing_credentials ⟨none, some "u", some "p"⟩ none _ rfl (Or.inl rfl)).2

lemma should_continue_concat (l : List Msg) (c : String) (tcs : List ToolCall) :
    should_continue (l ++ [Msg.ai c tcs])
      = if tcs = [] then NextNode.stop else NextNode.tools := by
  rw [should_continue, List.getLast?_concat]
  by_cases h : tcs = [] <;> simp [h]

lemma aggStep_foldl (l : List Msg) (r : String) (ts : List ToolEntry) :
    l.foldl aggStep (r, ts)
      = ((l.filterMap aiContent).getLastD r, ts ++ toolEntriesOf l) := by
  induction l generalizing r ts with
  | nil => simp [toolEntriesOf]
  | cons m t ih =>
      cases m with
      | human c => simp [aggStep, ih, toolEntriesOf, aiContent]
      | system c => simp [aggStep, ih, toolEntriesOf, aiContent]
      | ai c tcs =>
          simp only [List.foldl_cons, aggStep, ih, List.filterMap_cons,
            aiContent, toolEntriesOf, List.getLastD_cons]
      | tool name c e s => simp [aggStep, ih, toolEntriesOf, aiContent]

lemma toolEntriesOf_drop_pair (x y : Msg) (hx : toolEntriesOf [x, y] = [])
    (k : ℕ) : toolEntriesOf (List.drop k [x, y]) = [] := by
  match k with
  | 0 => exact hx
  | 1 =>
      simp [toolEntriesOf] at hx ⊢
      exact hx.2
  | n + 2 => simp [toolEntriesOf]

lemma runLoop_msgs_extend (llm : LLM) (execTool : ToolCall → Msg)
    (budget : ℕ) (history : List Msg) :
    ∃ t, (runLoop llm execTool budget history).msgs = history ++ t := by
  induction budget generalizing history with
  | zero =>
      rw [runLoop]
      split <;> exact ⟨_, rfl⟩
  | succ n ih =>
      rw [runLoop]
      split
      · exact ⟨_, rfl⟩
      · obtain ⟨t, ht⟩ := ih ((history ++
          [Msg.ai (llm (Msg.system SYSTEM_PROMPT :: history)).1
            (llm (Msg.system SYSTEM_PROMPT :: history)).2]) ++
          ((llm (Msg.system SYSTEM_PROMPT :: history)).2.map execTool))
        exact ⟨[Msg.ai (llm (Msg.system SYSTEM_PROMPT :: history)).1
            (llm (Msg.system SYSTEM_PROMPT :: history)).2] ++
          ((llm (Msg.system SYSTEM_PROMPT :: history)).2.map execTool) ++ t,
          by simpa using ht⟩

lemma ckGet_ckSet (st : CheckpointStore) (tid : String) (msgs : List Msg) :
    ckGet (ckSet st tid msgs) tid = msgs := by
  induction st with
  | nil => simp [ckSet, ckGet]
  | cons p rest ih =>
      by_cases h : p.1 == tid
      · simp [ckSet, h, ckGet]
      · simp [ckSet, h, ckGet]
        simpa [ckGet] using ih

lemma revScan_head_match (m : Msg) (rest : List Msg) (q : String)
    (h : msgContent m = q) : revScan q (m :: rest) = 0 := by
  simp [revScan, h]

lemma revScan_no_match (l : List Msg) (q : String)
    (h : ∀ m ∈ l, msgContent m ≠ q) : revScan q l = l.length - 1 := by
  induction l with
  | nil => simp [revScan]
  | cons m rest ih =>
      have hm : (msgContent m == q) = false := by
        simpa using h m (List.mem_cons_self m rest)
      cases rest with
      | nil => simp [revScan, hm]
      | cons a t =>
          have hr := ih (fun x hx => h x (List.mem_cons_of_mem m hx))
          have hstep : revScan q (m :: a :: t) = revScan q (a :: t) + 1 := by
            simp [revScan, hm]
          rw [hstep, hr]
          simp only [List.length_cons]
          omega

lemma revScan_match (l : List Msg) (q : String)
    (h : ∃ m ∈ l, msgContent m = q) :
    revScan q l = (l.takeWhile (fun m => msgContent m != q)).length := by
  induction l with
  | nil => simp at h
  | cons m rest ih =>
      by_cases hm : msgContent m = q
      · simp [revScan, List.takeWhile_cons, hm]
      · have hmb : (msgContent m == q) = false := by simpa using hm
        have hrest : ∃ x ∈ rest, msgContent x = q := by
          rcases h with ⟨x, hx, hxq⟩
          rcases List.mem_cons.mp hx with rfl | hx2
          · exact absurd hxq hm
          · exact ⟨x, hx2, hxq⟩
        cases rest with
        | nil => simp at hrest
        | cons a t =>
            have hr := ih hrest
            have hstep : revScan q (m :: a :: t) = revScan q (a :: t) + 1 := by
              simp [revScan, hmb]
            rw [hstep, hr]
            simp [List.takeWhile_cons, hm]

lemma takeWhile_length_le {α : Type} (p : α → Bool) (l : List α) :
    (l.takeWhile p).length ≤ l.length := by
  induction l with
  | nil => simp
  | cons a t ih =>
      rw [List.takeWhile_cons]
      by_cases h : p a
      · simpa [h] using ih
      · simp [h]

lemma take_takeWhile {α : Type} (p : α → Bool) (l : List α) :
    l.take ((l.takeWhile p).length) = l.takeWhile p := by
  induction l with
  | nil => simp
  | cons a t ih =>
      rw [List.takeWhile_cons]
      by_cases h : p a
      · simp [h, ih]
      · simp [h]

lemma pyWindow_strictlyAfter (msgs : List Msg) (q : String) (hne : msgs ≠ [])
    (hex : ∃ m ∈ msgs, msgContent m = q)
    (hlast : ∀ lm, msgs.getLast? = some lm → msgContent lm ≠ q) :
    pyWindow msgs q = strictlyAfterLastOcc msgs q := by
  have hexR : ∃ m ∈ msgs.reverse, msgContent m = q := by simpa using hex
  have hn := revScan_match msgs.reverse q hexR
  cases hR : msgs.reverse with
  | nil =>
      exact absurd (by simpa using congrArg List.reverse hR) hne
  | cons a t =>
      have ha : msgs.getLast? = some a := by
        have h0 := List.head?_reverse msgs
        rw [hR] at h0
        simpa using h0.symm
      have haq : msgContent a ≠ q := hlast a ha
      have haqb : (msgContent a != q) = true := by simpa using haq
      have hkpos :
          ((a :: t).takeWhile (fun m => msgContent m != q)).length ≠ 0 := by
        rw [List.takeWhile_cons, if_pos haqb]
        simp
      have hlenR : msgs.length = (a :: t).length := by
        rw [← List.length_reverse msgs, hR]
      have hk_le :
          ((a :: t).takeWhile (fun m => msgContent m != q)).length
            ≤ msgs.length := by
        rw [hlenR]
        exact takeWhile_length_le _ _
      rw [pyWindow, revScanN, hn, hR, pyTailSlice, if_neg hkpos,
        strictlyAfterLastOcc, hR]
      have h1 : msgs.reverse.take
          (((a :: t).takeWhile (fun m => msgContent m != q)).length)
          = (msgs.drop (msgs.length -
              ((a :: t).takeWhile (fun m => msgContent m != q)).length)).reverse :=
        List.take_reverse
      rw [hR] at h1
      rw [take_takeWhile] at h1
      calc msgs.drop (msgs.length -
              ((a :: t).takeWhile (fun m => msgContent m != q)).length)
          = ((msgs.drop (msgs.length -
              ((a :: t).takeWhile (fun m => msgContent m != q)).length)).reverse).reverse := by
            rw [List.reverse_reverse]
        _ = ((a :: t).takeWhile (fun m => msgContent m != q)).reverse := by
            rw [← h1]

/-- C3 counterexample: the aggregation in `process_query` does not match the
claim on two concrete histories.  When the most recent occurrence of the
question is the last message, `msgs[-0:]` is the whole history, so the
answer preceding the question is returned where the claim (only messages
strictly after the occurrence) yields no answer.  And the final answer is
the content of the last assistant message even when that content is empty,
where the claim takes the last assistant message with text. -/
theorem c3_counterexample :
    processQueryAggregate [Msg.ai "ans" [], Msg.human "q"] "q"
        ≠ claimAggregate [Msg.ai "ans" [], Msg.human "q"] "q" ∧
    processQueryAggregate [Msg.human "q", Msg.ai "ans" [], Msg.ai "" []] "q"
        ≠ claimAggregate [Msg.human "q", Msg.ai "ans" [], Msg.ai "" []] "q" := by
  decide

/-- C3 amended: on a nonempty history, `process_query` aggregates over the
window `msgs[-n:]` where `n` is the reversed-scan index of the most recent
occurrence of the question; the final answer is the content of the last
assistant message of the window (empty when there is none, even when a
preceding assistant message has text) and the tool results are in order with
raw content on error status and the structured body otherwise.  The window
is the messages strictly after the most recent occurrence of the question
whenever that occurrence exists and is not the last message; it is the whole
history when the question is the last message, and all but the first message
(the whole history when it is a singleton) when the question does not occur.
On an empty history the aggregation fails (`none`). -/
theorem c3_aggregation_amended (msgs : List Msg) (q : String)
    (hne : msgs ≠ []) :
    processQueryAggregate msgs q
      = some (lastAiContent (pyWindow msgs q), toolEntriesOf (pyWindow msgs q)) ∧
    (∀ lm, msgs.getLast? = some lm → msgContent lm = q →
      pyWindow msgs q = msgs) ∧
    ((∃ m ∈ msgs, msgContent m = q) →
      (∀ lm, msgs.getLast? = some lm → msgContent lm ≠ q) →
      pyWindow msgs q = strictlyAfterLastOcc msgs q) ∧
    ((∀ m ∈ msgs, msgContent m ≠ q) →
      pyWindow msgs q = if msgs.length = 1 then msgs else msgs.drop 1) := by
  refine ⟨?_, ?_, fun hex hlast => pyWindow_strictlyAfter msgs q hne hex hlast, ?_⟩
  · rw [processQueryAggregate, if_neg hne, aggStep_foldl]
    simp [lastAiContent]
  · intro lm hlast hq
    rw [pyWindow, revScanN]
    cases hR : msgs.reverse with
    | nil =>
        exact absurd (by simpa using congrArg List.reverse hR) hne
    | cons a t =>
        have ha : a = lm := by
          have h0 := List.head?_reverse msgs
          rw [hR, hlast] at h0
          simpa using h0
        rw [revScan_head_match a t q (by rw [ha]; exact hq)]
        rfl
  · intro hnone
    have hnR : ∀ m ∈ msgs.reverse, msgContent m ≠ q := by simpa using hnone
    have hn := revScan_no_match msgs.reverse q hnR
    rw [pyWindow, revScanN, hn, List.length_reverse]
    by_cases h1 : msgs.length = 1
    · simp [pyTailSlice, h1]
    · have hlen0 : msgs.length ≠ 0 := fun h => hne (List.length_eq_zero.mp h)
      rw [if_neg h1, pyTailSlice, if_neg (by omega)]
      congr 1
      omega

theorem c3_witness :
    processQueryAggregate
        [Msg.human "q", Msg.tool "check_blocking_sessions" "msg" false "body",
         Msg.ai "done" []] "q"
      = some ("done",
          [⟨"check_blocking_sessions", ToolPayload.structured "body"⟩]) := by
  have h := (c3_aggregation_amended
    [Msg.human "q", Msg.tool "check_blocking_sessions" "msg" false "body",
     Msg.ai "done" []] "q" (by simp)).1
  rw [h]
  decide

/-- C1: for every history whose last message is an assistant message, the
conditional edge `should_continue` goes to the terminal `END` exactly when
no tool invocations are requested, and to the tool node when one or more
are; consequently a question the model answers without any tool call
terminates in exactly one `AWAIT_MODEL` step (`modelSteps = 1`, no dispatch
cycle) and the aggregated tool-result list is empty. -/
theorem c1_should_continue_done (pre : List Msg) (c : String)
    (tcs : List ToolCall) (llm : LLM) (execTool : ToolCall → Msg)
    (budget : ℕ) (q : String)
    (hq : (llm [Msg.system SYSTEM_PROMPT, Msg.human q]).2 = []) :
    (should_continue (pre ++ [Msg.ai c tcs])
        = if tcs = [] then NextNode.stop else NextNode.tools) ∧
    runLoop llm execTool budget [Msg.human q]
      = ⟨true, [Msg.human q,
          Msg.ai (llm [Msg.system SYSTEM_PROMPT, Msg.human q]).1 []], 1, 0⟩ ∧
    (process_query llm execTool budget [] q).2.2 = [] := by
  have hrun : runLoop llm execTool budget [Msg.human q]
      = ⟨true, [Msg.human q,
          Msg.ai (llm [Msg.system SYSTEM_PROMPT, Msg.human q]).1 []], 1, 0⟩ := by
    cases budget with
    | zero => simp [runLoop, hq, should_continue]
    | succ n => simp [runLoop, hq, should_continue]
  refine ⟨should_continue_concat pre c tcs, hrun, ?_⟩
  have hck : ckGet [] "1" = [] := rfl
  have hmsgs : (runLoop llm execTool budget (ckGet [] "1" ++ [Msg.human q])).msgs
      = [Msg.human q, Msg.ai (llm [Msg.system SYSTEM_PROMPT, Msg.human q]).1 []] := by
    rw [hck]
    simp only [List.nil_append]
    rw [hrun]
  have hte : toolEntriesOf
      (pyWindow [Msg.human q,
        Msg.ai (llm [Msg.system SYSTEM_PROMPT, Msg.human q]).1 []] q) = [] := by
    rw [pyWindow, pyTailSlice]
    split
    · simp [toolEntriesOf]
    · exact toolEntriesOf_drop_pair _ _ (by simp [toolEntriesOf]) _
  simp [process_query, graphInvoke, hmsgs, processQueryAggregate,
    aggStep_foldl, hte]

theorem c1_witness :
    runLoop (fun _ => ("answer", [])) execStub 7 [Msg.human "slow query"]
      = ⟨true, [Msg.human "slow query", Msg.ai "answer" []], 1, 0⟩ :=
  (c1_should_continue_done [] "x" [] _ execStub 7 "slow query" rfl).2.1

/-- C2: against a model that always requests at least one tool call, the
loop with round-trip budget `N` performs exactly `N` dispatch cycles, never
an `N + 1`-st, and terminates with the fatal, reported failure
(`finished = false`). -/
theorem c2_budget_exceeded (llm : LLM) (execTool : ToolCall → Msg)
    (budget : ℕ) (h0 : List Msg) (halways : ∀ h, (llm h).2 ≠ []) :
    (runLoop llm execTool budget h0).finished = false ∧
    (runLoop llm execTool budget h0).dispatchCycles = budget := by
  induction budget generalizing h0 with
  | zero =>
      have hs := should_continue_concat h0
        (llm (Msg.system SYSTEM_PROMPT :: h0)).1
        (llm (Msg.system SYSTEM_PROMPT :: h0)).2
      rw [if_neg (halways _)] at hs
      simp [runLoop, hs]
  | succ n ih =>
      have hs := should_continue_concat h0
        (llm (Msg.system SYSTEM_PROMPT :: h0)).1
        (llm (Msg.system SYSTEM_PROMPT :: h0)).2
      rw [if_neg (halways _)] at hs
      simp [runLoop, hs, (ih _).1, (ih _).2]

theorem c2_witness :
    (runLoop (fun _ => ("", [⟨"check_blocking_sessions", ""⟩])) execStub 5
        [Msg.human "q"]).finished = false ∧
    (runLoop (fun _ => ("", [⟨"check_blocking_sessions", ""⟩])) execStub 5
        [Msg.human "q"]).dispatchCycles = 5 :=
  c2_budget_exceeded _ execStub 5 [Msg.human "q"] (fun _ => by simp)

/-- C9 counterexample: message history does carry over between successive
questions of the same agent: the graph is checkpointed under the constant
thread id "1", so a model that merely inspects its visible history answers
the same question "q2" differently after "q1" was processed ("saw q1") than
from a fresh agent state ("fresh") — the second Conversation is not
independent of the first. -/
theorem c9_counterexample :
    (process_query llmProbe execStub 9 [] "q2").2.1 = "fresh" ∧
    (process_query llmProbe execStub 9
        (process_query llmProbe execStub 9 [] "q1").1 "q2").2.1 = "saw q1" := by
  decide

/-- C9 amended: successive questions share mutable message history through
the checkpointer: the state stored for the constant thread id "1" after a
question extends the previously stored history with the new question and the
messages of its exchange, for every model, tool executor, budget and prior
state. -/
theorem c9_history_carryover (llm : LLM) (execTool : ToolCall → Msg)
    (budget : ℕ) (st : CheckpointStore) (q : String) :
    ∃ t, ckGet (process_query llm execTool budget st q).1 "1"
        = (ckGet st "1" ++ [Msg.human q]) ++ t := by
  obtain ⟨t, ht⟩ := runLoop_msgs_extend llm execTool budget
    (ckGet st "1" ++ [Msg.human q])
  exact ⟨t, by simp [process_query, graphInvoke, ckGet_ckSet, ht]⟩

/-- C10: calling `sql_monitoring` with session id `0` behaves exactly as
calling it with no session id: `0` is falsy, so no per-session filter is
applied, all rows are covered, and the reported filter is `"all"`. -/
theorem c10_sql_monitoring_sid_zero (activeRows : List SessionRow) :
    sql_monitoring (some 0) activeRows = sql_monitoring none activeRows ∧
    (sql_monitoring (some 0) activeRows).session_filter = "all" :=
  ⟨rfl, rfl⟩

end OciDbDoctor
